import Mathlib

/-!
Verification of the content-extraction and book-segmentation pipeline of the
ecclesiakiononia repository (create_website.py, improve_website.py,
add_adam_eve.py).

The HTML documents handled by the scripts are modelled as a tree of nodes
(`Node`).  BeautifulSoup operations used by the code are embedded as pure
functions on this tree:
  * `find_all(tags)` / `find(tag)` become `findAllW` / `findFirstTag`
    (pre-order traversal of strict descendants, as BeautifulSoup does);
  * `decompose()` loops become recursive removal passes (`stripTags` for the
    unconditional script/nav/style/head removal, `navPass` for the
    conditional center/hr pass); iterating a `find_all` snapshot in document
    order while decomposing is equivalent to the top-down recursive pass,
    because a removal decision never depends on parts of the tree already
    visited;
  * `get_text()` becomes `getText`, `str(element)` becomes `render`;
  * Python string methods become `pyStrip` (str.strip), `pyLower`
    (str.lower), `pyReplace` (str.replace), `strContains` (the `in`
    operator) and `strStartsWith` (str.startswith).
File reading and the per-file try/except are outside the embedding: inputs
are given as already-parsed trees, and an unreadable file is modelled as
`none` where the claims need the error path.
-/

/-- HTML node: a text node, or an element with a tag, an attribute list and
a list of children. -/
inductive Node where
  | text : String → Node
  | elem : String → List (String × String) → List Node → Node

/-- Python str.lower for one character (ASCII case mapping suffices for the
titles handled by the scripts). -/
def pyLowerChar (c : Char) : Char :=
  if c.toNat ≥ 65 && c.toNat ≤ 90 then Char.ofNat (c.toNat + 32) else c

/-- Python str.lower. -/
def pyLower (s : String) : String := String.mk (s.data.map pyLowerChar)

/-- Whitespace characters removed by Python str.strip. -/
def isPySpace (c : Char) : Bool :=
  c = ' ' || c = '\t' || c = '\n' || c = '\r' || c = Char.ofNat 11 || c = Char.ofNat 12

/-- Python str.strip: remove leading and trailing whitespace. -/
def pyStrip (s : String) : String :=
  String.mk (((s.data.dropWhile isPySpace).reverse.dropWhile isPySpace).reverse)

/-- Decidable prefix test on character lists. -/
def listIsPrefix : List Char → List Char → Bool
  | [], _ => true
  | _ :: _, [] => false
  | a :: ps, b :: ls => a == b && listIsPrefix ps ls

/-- Decidable substring test on character lists (Python's `in` operator). -/
def listHasSub (l pat : List Char) : Bool :=
  match l with
  | [] => pat.isEmpty
  | _ :: ls => listIsPrefix pat l || listHasSub ls pat

/-- Python `pat in s` substring test. -/
def strContains (s pat : String) : Bool := listHasSub s.data pat.data

/-- Python s.startswith(pat). -/
def strStartsWith (s pat : String) : Bool := listIsPrefix pat.data s.data

/-- Worker for Python str.replace: scans left to right, replacing each
non-overlapping occurrence of `pat`; the counter skips the remainder of a
matched occurrence. -/
def pyReplaceAux (pat rep : List Char) : List Char → Nat → List Char
  | [], _ => []
  | c :: cs, 0 =>
    if listIsPrefix pat (c :: cs) then rep ++ pyReplaceAux pat rep cs (pat.length - 1)
    else c :: pyReplaceAux pat rep cs 0
  | _ :: cs, k + 1 => pyReplaceAux pat rep cs k

/-- Python s.replace(pat, rep) for a non-empty pattern (the scripts only
replace the fixed non-empty suffix and the underscore). -/
def pyReplace (s pat rep : String) : String :=
  if pat.data.isEmpty then s else String.mk (pyReplaceAux pat.data rep.data s.data 0)

/-- Concatenation of a list of strings. -/
def concatStrs : List String → String
  | [] => ""
  | s :: ss => s ++ concatStrs ss

mutual
/-- BeautifulSoup element.get_text(): concatenation of every text node of
the subtree, in document order. -/
def getText : Node → String
  | .text s => s
  | .elem _ _ cs => getTextL cs
/-- get_text over a list of children. -/
def getTextL : List Node → String
  | [] => ""
  | n :: ns => getText n ++ getTextL ns
end

/-- First value of an attribute in an attribute list (BeautifulSoup
element.get). -/
def attrGet (a : List (String × String)) (k : String) : Option String :=
  match a with
  | [] => none
  | kv :: rest => if kv.1 == k then some kv.2 else attrGet rest k

/-- Serialization of an attribute list. -/
def renderAttrs : List (String × String) → String
  | [] => ""
  | kv :: rest => " " ++ kv.1 ++ "=\"" ++ kv.2 ++ "\"" ++ renderAttrs rest

mutual
/-- str(element): serialize a node with its tag and attributes. -/
def render : Node → String
  | .text s => s
  | .elem t a cs => "<" ++ t ++ renderAttrs a ++ ">" ++ renderL cs ++ "</" ++ t ++ ">"
/-- Serialization of a list of children. -/
def renderL : List Node → String
  | [] => ""
  | n :: ns => render n ++ renderL ns
end

mutual
/-- BeautifulSoup find_all with a predicate on tag and attributes: every
strict descendant element matching the predicate, in document (pre-)order. -/
def findAllW (p : String → List (String × String) → Bool) : Node → List Node
  | .text _ => []
  | .elem _ _ cs => findAllWL p cs
/-- find_all over a list of sibling subtrees. -/
def findAllWL (p : String → List (String × String) → Bool) : List Node → List Node
  | [] => []
  | n :: ns => findAllWN p n ++ findAllWL p ns
/-- find_all contribution of a single subtree: the node itself when it is a
matching element, followed by its matching descendants. -/
def findAllWN (p : String → List (String × String) → Bool) : Node → List Node
  | .text _ => []
  | .elem t a cs => (if p t a then [Node.elem t a cs] else []) ++ findAllWL p cs
end

/-- BeautifulSoup soup.find(tag): first matching strict descendant. -/
def findFirstTag (t : String) (n : Node) : Option Node :=
  (findAllW (fun s _ => s == t) n).head?

/-- Truthiness of element.find(tag): some descendant with this tag exists. -/
def hasDescTag (t : String) (n : Node) : Bool :=
  !(findAllW (fun s _ => s == t) n).isEmpty

mutual
/-- Unconditional decompose pass: remove every element whose tag is in
`bad`, together with its subtree (used for script/nav/style/head); the root
the pass is invoked on is itself never removed. -/
def stripTags (bad : List String) : Node → Node
  | .text s => .text s
  | .elem t a cs => .elem t a (stripTagsL bad cs)
/-- stripTags over a list of children. -/
def stripTagsL (bad : List String) : List Node → List Node
  | [] => []
  | n :: ns => stripTagsN bad n ++ stripTagsL bad ns
/-- Contribution of one subtree to the decompose pass: nothing when the
node is a removed element, the processed node otherwise. -/
def stripTagsN (bad : List String) : Node → List Node
  | .text s => [.text s]
  | .elem t a cs =>
    if bad.contains t then [] else [.elem t a (stripTagsL bad cs)]
end

mutual
/-- The center/hr decompose pass of the scripts, applied to the body: an hr
element is always removed; a center element is removed unless `keep` holds
of it (evaluated on its not-yet-processed subtree, matching the
document-order loop); all other elements are kept and their children
processed. -/
def navPass (keep : Node → Bool) : Node → Node
  | .text s => .text s
  | .elem t a cs => .elem t a (navPassL keep cs)
/-- navPass over a list of children. -/
def navPassL (keep : Node → Bool) : List Node → List Node
  | [] => []
  | n :: ns => navPassN keep n ++ navPassL keep ns
/-- Contribution of one subtree to the center/hr pass. -/
def navPassN (keep : Node → Bool) : Node → List Node
  | .text s => [.text s]
  | .elem t a cs =>
    if t == "center" then
      if keep (.elem t a cs) then [.elem t a (navPassL keep cs)] else []
    else if t == "hr" then []
    else [.elem t a (navPassL keep cs)]
end

mutual
/-- In-place mutation of the first body element: returns the tree with the
first (pre-order) body element replaced by `f` of it, and whether one was
found (the root itself is not a candidate, matching soup.find). -/
def replaceBody (f : Node → Node) : Node → Node × Bool
  | .text s => (.text s, false)
  | .elem t a cs =>
    let r := replaceBodyL f cs
    (.elem t a r.1, r.2)
/-- replaceBody over a list of children: stop at the first subtree that
contains a body. -/
def replaceBodyL (f : Node → Node) : List Node → List Node × Bool
  | [] => ([], false)
  | n :: ns =>
    match replaceBodyN f n with
    | (n2, true) => (n2 :: ns, true)
    | (n2, false) =>
      let r := replaceBodyL f ns
      (n2 :: r.1, r.2)
/-- replaceBody inside one subtree, the subtree root included as a
candidate. -/
def replaceBodyN (f : Node → Node) : Node → Node × Bool
  | .text s => (.text s, false)
  | .elem t a cs =>
    if t == "body" then (f (.elem t a cs), true)
    else
      let r := replaceBodyL f cs
      (.elem t a r.1, r.2)
end

/-- Apply `f` to the first body element of the tree (models that the body
object mutated in place is shared with the whole soup). -/
def mapFirstBody (f : Node → Node) (n : Node) : Node := (replaceBody f n).1

mutual
/-- The href-stripping loop: delete the href attribute of every `a`
element in the subtree, keeping all text. -/
def stripLinks : Node → Node
  | .text s => .text s
  | .elem t a cs =>
    .elem t (if t == "a" then a.filter (fun kv => kv.1 != "href") else a) (stripLinksL cs)
/-- stripLinks over a list of children. -/
def stripLinksL : List Node → List Node
  | [] => []
  | n :: ns => stripLinks n :: stripLinksL ns
end

/-- element.find_all over an element applies only to strict descendants, so
the element's own attributes are untouched. -/
def stripLinksBelow : Node → Node
  | .text s => .text s
  | .elem t a cs => .elem t a (stripLinksL cs)

/-- Tags h1 .. h6. -/
def isHeadingTag (t : String) : Bool :=
  t == "h1" || t == "h2" || t == "h3" || t == "h4" || t == "h5" || t == "h6"

/-- The tag set collected into the fragment by all three scripts:
headings, paragraphs, generic block containers and block quotes. -/
def isCollectTag (t : String) : Bool :=
  isHeadingTag t || t == "p" || t == "div" || t == "blockquote"

/-- The qualification test of the heading-scan loop of create_website.py
and improve_website.py: stripped text non-empty and, lower-cased, not
starting with the umbrella title. -/
def headingQualifies (h : Node) : Bool :=
  pyStrip (getText h) != "" &&
    !(strStartsWith (pyLower (pyStrip (getText h))) "the forgotten books")

/-- The heading-scan loop shared by create_website.py and
improve_website.py: the loop variable is assigned the stripped text of each
heading in turn and the loop breaks at the first heading that qualifies;
with no break the variable keeps the last assignment. -/
def titleLoop : String → List Node → String
  | acc, [] => acc
  | _, h :: hs =>
    if headingQualifies h then pyStrip (getText h)
    else titleLoop (pyStrip (getText h)) hs

/-- Title recovery from the headings of a (processed) body. -/
def titleFromHeadings (body : Node) : String :=
  titleLoop "" (findAllW (fun t _ => isHeadingTag t) body)

/-- Match for soup.find(meta, property=og:title). -/
def isOgTitleMeta (t : String) (a : List (String × String)) : Bool :=
  t == "meta" && attrGet a "property" == some "og:title"

namespace CreateWebsite

/-- create_website.py line 36: a center survives when it has an h1, h2, h3
or p descendant (element.find is recursive). -/
def keepCenter (n : Node) : Bool :=
  hasDescTag "h1" n || hasDescTag "h2" n || hasDescTag "h3" n || hasDescTag "p" n

/-- BookParser.extract_clean_content of create_website.py: remove
script/nav/style/head from the whole soup, locate the body, run the
center/hr pass, recover the title from the headings, and collect every
non-empty heading/p/div/blockquote serialization. -/
def extract_clean_content (root : Node) : String × String :=
  let soup := stripTags ["script", "nav", "style", "head"] root
  match findFirstTag "body" soup with
  | none => ("", "")
  | some body =>
    let body2 := navPass keepCenter body
    let title := titleFromHeadings body2
    let frag := (findAllW (fun t _ => isCollectTag t) body2).foldl
      (fun acc e => if pyStrip (getText e) != "" then acc ++ render e ++ "\n" else acc) ""
    (title, frag)

/-- The five front-matter filenames pre-seeded into the title_pages bucket. -/
def titlePages : List String :=
  ["fbe000.htm", "fbe001.htm", "fbe002.htm", "fbe003.htm", "fbe004.htm"]

/-- The two index filenames pre-seeded into the index_pages bucket. -/
def indexPages : List String := ["index.htm", "pageidx.htm"]

/-- The `continue` test of the classification loop. -/
def skipFile (name : String) : Bool :=
  titlePages.contains name || indexPages.contains name

/-- The keyword ladder of identify_book_sections (lines 88-105): ordered
if/elif tests on the lower-cased title; the first matching predicate names
the new bucket, otherwise the cursor is unchanged (`none`). -/
def classifyTitle (tl : String) : Option String :=
  if strContains tl "first book of adam" then some "first_book_adam_eve"
  else if strContains tl "second book of adam" then some "second_book_adam_eve"
  else if strContains tl "secrets of enoch" || strContains tl "book of the secrets of enoch" then
    some "secrets_enoch"
  else if strContains tl "psalms of solomon" then some "psalms_solomon"
  else if strContains tl "odes of solomon" then some "odes_solomon"
  else if strContains tl "letter of aristeas" then some "letter_aristeas"
  else if strContains tl "fourth book of maccabees" || strContains tl "maccabees" then
    some "fourth_maccabees"
  else if strContains tl "story of ahikar" || strContains tl "ahikar" then
    some "story_ahikar"
  else if strContains tl "testament" then some "testaments_patriarchs"
  else none

/-- The classification loop of identify_book_sections: thread the cursor
through the sorted files, skipping the pre-seeded filenames; a keyword match
moves the cursor and the file is appended to the bucket the cursor names
after the test.  Input files are (filename, parsed document) in sorted
order; the result records each assignment in file order. -/
def segAssign : String → List (String × Node) → List (String × String)
  | _, [] => []
  | cur, fd :: rest =>
    if skipFile fd.1 then segAssign cur rest
    else
      let cur2 := (classifyTitle (pyLower (extract_clean_content fd.2).1)).getD cur
      (fd.1, cur2) :: segAssign cur2 rest

/-- identify_book_sections: the cursor starts at the title_pages bucket. -/
def identify_book_sections (files : List (String × Node)) : List (String × String) :=
  segAssign "title_pages" files

/-- The filename list a bucket of the book_sections dict receives (in file
order), for buckets other than the two pre-seeded ones. -/
def bucketFiles (files : List (String × Node)) (bucket : String) : List String :=
  ((identify_book_sections files).filter (fun x => x.2 == bucket)).map (fun x => x.1)

/-- The per-file keyword-match results of the scan, in file order,
restricted to files that match some predicate. -/
def matchList (files : List (String × Node)) : List String :=
  files.filterMap (fun fd =>
    if skipFile fd.1 then none
    else classifyTitle (pyLower (extract_clean_content fd.2).1))

/-- One chapter record: filename, recovered title, cleaned fragment. -/
structure Chapter where
  filename : String
  title : String
  content : String
deriving DecidableEq

/-- One structured book: id, display title, ordered chapters. -/
structure BookData where
  id : String
  title : String
  chapters : List Chapter
deriving DecidableEq

/-- The fixed display-title table of get_book_title. -/
def bookTitles : List (String × String) :=
  [("first_book_adam_eve", "The First Book of Adam and Eve"),
   ("second_book_adam_eve", "The Second Book of Adam and Eve"),
   ("secrets_enoch", "The Book of the Secrets of Enoch"),
   ("psalms_solomon", "The Psalms of Solomon"),
   ("odes_solomon", "The Odes of Solomon"),
   ("letter_aristeas", "The Letter of Aristeas"),
   ("fourth_maccabees", "The Fourth Book of Maccabees"),
   ("story_ahikar", "The Story of Ahikar"),
   ("testaments_patriarchs", "The Testaments of the Twelve Patriarchs")]

/-- Python str.title worker: upper-case the first character of each
alphabetic run, lower-case the rest. -/
def pyTitleAux : Bool → List Char → List Char
  | _, [] => []
  | prevAlpha, c :: cs =>
    if c.isAlpha then (if prevAlpha then c.toLower else c.toUpper) :: pyTitleAux true cs
    else c :: pyTitleAux false cs

/-- Python str.title. -/
def pyTitle (s : String) : String := String.mk (pyTitleAux false s.data)

/-- get_book_title: table lookup with the replace/title fallback. -/
def get_book_title (sec : String) : String :=
  match attrGet bookTitles sec with
  | some t => t
  | none => pyTitle (pyReplace sec "_" " ")

/-- One iteration of the chapter loop of process_book_section: an
unreadable file (`none`) is logged and skipped; otherwise a chapter is
appended exactly when both extracted title and fragment are non-empty
(Python truthiness of the two strings), with no log either way. -/
def processStep (st : List Chapter × List String) (fd : String × Option Node) :
    List Chapter × List String :=
  match fd.2 with
  | none => (st.1, st.2 ++ ["Error processing " ++ fd.1])
  | some d =>
    let r := extract_clean_content d
    if r.1 != "" && r.2 != "" then
      (st.1 ++ [{ filename := fd.1, title := r.1, content := r.2 }], st.2)
    else st

/-- process_book_section: build the chapter list (collecting the error
logs of unreadable files) and return the book only when the chapter list is
non-empty (line 169 returns None otherwise). -/
def process_book_section (name : String) (files : List (String × Option Node)) :
    Option BookData × List String :=
  let r := files.foldl processStep ([], [])
  ((if r.1.isEmpty then none
    else some { id := name, title := get_book_title name, chapters := r.1 }), r.2)

/-- The book-collection loop of generate_modern_website (lines 126-133):
skip the two pre-seeded buckets and empty file lists; keep a book only when
process_book_section returned one. -/
def generate_books_data (sections : List (String × List (String × Option Node))) :
    List (String × BookData) × List String :=
  sections.foldl
    (fun acc sec =>
      if sec.1 == "title_pages" || sec.1 == "index_pages" || sec.2.isEmpty then acc
      else
        match (process_book_section sec.1 sec.2).1 with
        | some bd => (acc.1 ++ [(sec.1, bd)], acc.2 ++ (process_book_section sec.1 sec.2).2)
        | none => (acc.1, acc.2 ++ (process_book_section sec.1 sec.2).2))
    ([], [])

end CreateWebsite

namespace ImproveWebsite

/-- improve_website.py line 139: identical center test to create_website. -/
def keepCenter (n : Node) : Bool :=
  hasDescTag "h1" n || hasDescTag "h2" n || hasDescTag "h3" n || hasDescTag "p" n

/-- The og:title recovery of improve_website.py line 148: attribute
`content` with default empty string, with the site suffix replaced away. -/
def metaTitleOf (m : Node) : String :=
  match m with
  | .text _ => ""
  | .elem _ a _ => pyReplace ((attrGet a "content").getD "") " | Sacred Texts Archive" ""

/-- extract_clean_content of improve_website.py: remove
script/nav/style/head from the whole soup, locate the body, run the
center/hr pass in place (shared with the soup), then prefer the og:title
meta of the soup, falling back to the heading scan; collect every non-empty
heading/p/div/blockquote serialization of the body. -/
def extract_clean_content (root : Node) : String × String :=
  let soup := stripTags ["script", "nav", "style", "head"] root
  match findFirstTag "body" soup with
  | none => ("", "")
  | some body =>
    let body2 := navPass keepCenter body
    let soup2 := mapFirstBody (navPass keepCenter) soup
    let metaT :=
      match (findAllW isOgTitleMeta soup2).head? with
      | some m => metaTitleOf m
      | none => ""
    let title := if metaT != "" then metaT else titleFromHeadings body2
    let frag := (findAllW (fun t _ => isCollectTag t) body2).foldl
      (fun acc e => if pyStrip (getText e) != "" then acc ++ render e ++ "\n" else acc) ""
    (title, frag)

end ImproveWebsite

namespace AddAdamEve

/-- add_adam_eve.py lines 92-93: a center survives when it has an h1, h2 or
h3 descendant, or it has a p descendant and the trimmed text of the whole
center exceeds 50 characters. -/
def keepCenter (n : Node) : Bool :=
  hasDescTag "h1" n || hasDescTag "h2" n || hasDescTag "h3" n ||
    (hasDescTag "p" n && (pyStrip (getText n)).length > 50)

/-- add_adam_eve.py lines 71-77: the title comes only from the og:title
meta of the pristine soup, and only when its content attribute is present
and non-empty. -/
def metaTitle (root : Node) : String :=
  match (findAllW isOgTitleMeta root).head? with
  | some (.elem _ a _) =>
    match attrGet a "content" with
    | some c => if c != "" then pyReplace c " | Sacred Texts Archive" "" else ""
    | none => ""
  | _ => ""

/-- The collection test of add_adam_eve.py line 103: stripped text
non-empty and longer than 10 characters. -/
def threshold (e : Node) : Bool :=
  pyStrip (getText e) != "" && (pyStrip (getText e)).length > 10

/-- The collection loop of add_adam_eve.py lines 100-108: serialize, in
document order, every heading/p/blockquote/div whose trimmed text passes
the threshold, after deleting the href attribute of every nested `a`. -/
def collectContent (body : Node) : String :=
  (findAllW (fun t _ => isCollectTag t) body).foldl
    (fun acc e =>
      if threshold e then acc ++ render (stripLinksBelow e) ++ "\n" else acc) ""

/-- extract_clean_content of add_adam_eve.py: meta title first (from the
untouched soup), then locate the body, remove script/nav/style inside it,
run the center/hr pass, and collect the fragment. -/
def extract_clean_content (root : Node) : String × String :=
  let title := metaTitle root
  match findFirstTag "body" root with
  | none => ("", "")
  | some body =>
    let b1 := stripTags ["script", "nav", "style"] body
    let b2 := navPass keepCenter b1
    (title, collectContent b2)

end AddAdamEve

/-! ## Small sample documents used by witnesses and counterexamples -/

/-- A sample page whose only heading names the Second Book of Adam and Eve. -/
def secondBookDoc : Node :=
  Node.elem "html" []
    [Node.elem "body" [] [Node.elem "h1" [] [Node.text "The Second Book of Adam and Eve"]]]

/-- A sample page whose only heading names the First Book of Adam and Eve. -/
def firstBookDoc : Node :=
  Node.elem "html" []
    [Node.elem "body" [] [Node.elem "h1" [] [Node.text "The First Book of Adam and Eve"]]]

/-- A sample page with a long paragraph and no heading: the extracted title
is empty, so no chapter is produced from it. -/
def noTitleDoc : Node :=
  Node.elem "html" []
    [Node.elem "body" []
      [Node.elem "p" [] [Node.text "This is a sufficiently long paragraph of content."]]]

/-- A sample page with one short heading: create_website extracts the
heading as title and its serialization as fragment. -/
def odeDoc : Node :=
  Node.elem "html" []
    [Node.elem "body" [] [Node.elem "h1" [] [Node.text "Ode One"]]]

/-! ## General lemmas about the embedding -/

/-- concatStrs is a homomorphism for list append. -/
theorem concatStrs_append (xs ys : List String) :
    concatStrs (xs ++ ys) = concatStrs xs ++ concatStrs ys := by
  induction xs with
  | nil => simp [concatStrs, String.empty_append]
  | cons x xs ih => simp [concatStrs, ih, String.append_assoc]

/-- The accumulation loop of add_adam_eve collection equals the
concatenation of the serializations of the threshold-passing elements. -/
theorem collectFold_eq (l : List Node) (acc : String) :
    l.foldl
      (fun a e => if AddAdamEve.threshold e then a ++ render (stripLinksBelow e) ++ "\n" else a)
      acc =
    acc ++ concatStrs ((l.filter AddAdamEve.threshold).map
      (fun e => render (stripLinksBelow e) ++ "\n")) := by
  induction l generalizing acc with
  | nil => simp [concatStrs]
  | cons e es ih =>
    cases h : AddAdamEve.threshold e with
    | true =>
      simp only [List.foldl_cons, h, if_true, List.filter_cons, List.map_cons, concatStrs, ih]
      simp [String.append_assoc]
    | false => simp [h, ih]

/-- Looking up href in an attribute list from which href was deleted
yields nothing. -/
theorem attrGet_filtered (a : List (String × String)) :
    attrGet (a.filter (fun kv => kv.1 != "href")) "href" = none := by
  induction a with
  | nil => rfl
  | cons kv rest ih =>
    by_cases h : kv.1 == "href"
    · simpa [List.filter_cons, bne, h] using ih
    · simpa [List.filter_cons, bne, h, attrGet] using ih

mutual
/-- A node has no anchor with an href attribute anywhere in it. -/
def linksClean : Node → Bool
  | .text _ => true
  | .elem t a cs =>
    (if t == "a" then (attrGet a "href").isNone else true) && linksCleanL cs
/-- linksClean over a list of subtrees. -/
def linksCleanL : List Node → Bool
  | [] => true
  | n :: ns => linksClean n && linksCleanL ns
end

/-- No strict descendant of the node is an anchor carrying href. -/
def childrenLinksClean : Node → Bool
  | .text _ => true
  | .elem _ _ cs => linksCleanL cs

mutual
theorem stripLinks_clean : (n : Node) → linksClean (stripLinks n) = true
  | .text _ => rfl
  | .elem t a cs => by
    show linksClean (.elem t (if t == "a" then a.filter (fun kv => kv.1 != "href") else a)
      (stripLinksL cs)) = true
    by_cases h : t == "a"
    · simp [linksClean, h, attrGet_filtered, stripLinksL_clean cs]
    · simp [linksClean, h, stripLinksL_clean cs]
theorem stripLinksL_clean : (l : List Node) → linksCleanL (stripLinksL l) = true
  | [] => rfl
  | n :: ns => by
    simp [stripLinksL, linksCleanL, stripLinks_clean n, stripLinksL_clean ns]
end

mutual
theorem stripLinks_text : (n : Node) → getText (stripLinks n) = getText n
  | .text _ => rfl
  | .elem _ _ cs => stripLinksL_text cs
theorem stripLinksL_text : (l : List Node) → getTextL (stripLinksL l) = getTextL l
  | [] => rfl
  | n :: ns => by
    simp [stripLinksL, getTextL, stripLinks_text n, stripLinksL_text ns]
end

/-- The href-stripping of one collected element leaves no nested anchor
with an href. -/
theorem stripLinksBelow_clean (n : Node) : childrenLinksClean (stripLinksBelow n) = true := by
  cases n with
  | text s => rfl
  | elem t a cs => exact stripLinksL_clean cs

/-- The href-stripping of one collected element preserves all visible
text. -/
theorem stripLinksBelow_text (n : Node) : getText (stripLinksBelow n) = getText n := by
  cases n with
  | text s => rfl
  | elem t a cs => exact stripLinksL_text cs

/-! ## C2: cursor reassignment then inclusive appending -/

/-- C2: in the classification loop, a non-skipped file is first tested
against the ordered keyword ladder on its lower-cased extracted title; a
match moves the cursor to the matched bucket and the file itself is filed
under that new bucket (inclusive), while a file matching no predicate is
filed under the unchanged current bucket. -/
theorem c2_cursor_assignment (cur fn : String) (d : Node) (rest : List (String × Node))
    (hskip : CreateWebsite.skipFile fn = false) :
    (∀ b, CreateWebsite.classifyTitle (pyLower (CreateWebsite.extract_clean_content d).1) = some b →
      CreateWebsite.segAssign cur ((fn, d) :: rest) =
        (fn, b) :: CreateWebsite.segAssign b rest) ∧
    (CreateWebsite.classifyTitle (pyLower (CreateWebsite.extract_clean_content d).1) = none →
      CreateWebsite.segAssign cur ((fn, d) :: rest) =
        (fn, cur) :: CreateWebsite.segAssign cur rest) := by
  constructor
  · intro b hb
    simp [CreateWebsite.segAssign, hskip, hb]
  · intro hb
    simp [CreateWebsite.segAssign, hskip, hb]

/-- Witness for C2 at a concrete input: a file whose title names the Second
Book while the cursor is still on the first book is filed under the new
bucket. -/
theorem c2_witness :
    CreateWebsite.segAssign "first_book_adam_eve" [("fbe085.htm", secondBookDoc)] =
      ("fbe085.htm", "second_book_adam_eve") ::
        CreateWebsite.segAssign "second_book_adam_eve" [] :=
  (c2_cursor_assignment "first_book_adam_eve" "fbe085.htm" secondBookDoc [] (by decide)).1
    "second_book_adam_eve" (by decide)

/-! ## C7: chapter validity -/

/-- C7: processing one more readable file appends a chapter record exactly
when both the recovered title and the cleaned fragment are non-empty;
otherwise the chapter list is unchanged, and in either case no log entry is
produced (the skip is silent). -/
theorem c7_chapter_validity (files : List (String × Option Node)) (fn : String) (d : Node) :
    ((files ++ [(fn, some d)]).foldl CreateWebsite.processStep ([], [])).1 =
      (files.foldl CreateWebsite.processStep ([], [])).1 ++
        (if (CreateWebsite.extract_clean_content d).1 != "" &&
            (CreateWebsite.extract_clean_content d).2 != "" then
          [{ filename := fn, title := (CreateWebsite.extract_clean_content d).1,
             content := (CreateWebsite.extract_clean_content d).2 }]
         else []) ∧
    ((files ++ [(fn, some d)]).foldl CreateWebsite.processStep ([], [])).2 =
      (files.foldl CreateWebsite.processStep ([], [])).2 := by
  rw [List.foldl_append]
  cases h : (CreateWebsite.extract_clean_content d).1 != "" &&
      (CreateWebsite.extract_clean_content d).2 != "" with
  | true => simp [CreateWebsite.processStep, h]
  | false => simp [CreateWebsite.processStep, h]

/-! ## C9: empty buckets are omitted (amended: without a warning) -/

/-- process_book_section returns a book only when its chapter list is
non-empty, and the chapters of the book are exactly the collected ones. -/
theorem processBookSection_some {name : String} {files : List (String × Option Node)}
    {bd : CreateWebsite.BookData}
    (h : (CreateWebsite.process_book_section name files).1 = some bd) :
    bd.chapters = (files.foldl CreateWebsite.processStep ([], [])).1 ∧
    (files.foldl CreateWebsite.processStep ([], [])).1 ≠ [] := by
  simp only [CreateWebsite.process_book_section] at h
  by_cases he : (files.foldl CreateWebsite.processStep ([], [])).1.isEmpty
  · rw [if_pos he] at h
    exact absurd h (by simp)
  · rw [if_neg he] at h
    have hbd := (Option.some.inj h).symm
    constructor
    · rw [hbd]
    · intro hc
      exact he (by simp [hc])

/-- Helper for C9: every book in the accumulator-threaded collection loop
either was already in the accumulator or has a non-empty chapter list. -/
theorem generate_mem_aux (sections : List (String × List (String × Option Node)))
    (acc : List (String × CreateWebsite.BookData) × List String)
    (p : String × CreateWebsite.BookData)
    (h : p ∈ (sections.foldl
      (fun acc sec =>
        if sec.1 == "title_pages" || sec.1 == "index_pages" || sec.2.isEmpty then acc
        else
          match (CreateWebsite.process_book_section sec.1 sec.2).1 with
          | some bd =>
            (acc.1 ++ [(sec.1, bd)], acc.2 ++ (CreateWebsite.process_book_section sec.1 sec.2).2)
          | none => (acc.1, acc.2 ++ (CreateWebsite.process_book_section sec.1 sec.2).2)) acc).1) :
    p ∈ acc.1 ∨ p.2.chapters ≠ [] := by
  induction sections generalizing acc with
  | nil => exact Or.inl h
  | cons sec rest ih =>
    simp only [List.foldl_cons] at h
    by_cases hs : (sec.1 == "title_pages" || sec.1 == "index_pages" || sec.2.isEmpty) = true
    · rw [if_pos hs] at h
      exact ih acc h
    · rw [if_neg hs] at h
      cases hp : (CreateWebsite.process_book_section sec.1 sec.2).1 with
      | none =>
        rw [hp] at h
        exact ih (acc.1, acc.2 ++ (CreateWebsite.process_book_section sec.1 sec.2).2) h
      | some bd =>
        rw [hp] at h
        rcases ih (acc.1 ++ [(sec.1, bd)],
          acc.2 ++ (CreateWebsite.process_book_section sec.1 sec.2).2) h with hin | hne
        · rcases List.mem_append.mp hin with hin2 | hin2
          · exact Or.inl hin2
          · refine Or.inr ?_
            have hpv : p = (sec.1, bd) := by simpa using hin2
            have hbd := processBookSection_some hp
            rw [hpv]
            simpa [hbd.1] using hbd.2
        · exact Or.inr hne

/-- C9 (amended): a classification bucket whose files produce zero valid
chapters yields no book (process_book_section returns none), and every book
kept by the collection loop of generate_modern_website has at least one
chapter — but, contrary to the claim, no warning is logged for an empty
bucket (the only logging is the per-file read-error message). -/
theorem c9_empty_book_amended :
    (∀ (name : String) (files : List (String × Option Node)),
      (files.foldl CreateWebsite.processStep ([], [])).1 = [] →
        (CreateWebsite.process_book_section name files).1 = none) ∧
    (∀ (sections : List (String × List (String × Option Node)))
        (p : String × CreateWebsite.BookData),
      p ∈ (CreateWebsite.generate_books_data sections).1 → p.2.chapters ≠ []) := by
  constructor
  · intro name files h
    unfold CreateWebsite.process_book_section
    simp [h]
  · intro sections p h
    have := generate_mem_aux sections ([], []) p h
    simpa using this

/-- Counterexample for C9 as stated: a bucket with a single readable file
whose extracted title is empty produces no chapter, the book is omitted
(result none) — but the log list is empty: no warning is logged, contrary
to the claim. -/
theorem c9_counterexample :
    CreateWebsite.process_book_section "odes_solomon" [("fbe120.htm", some noTitleDoc)] =
      (none, []) := by
  decide

/-- Witness for C9 at concrete inputs: the empty bucket is omitted, and a
bucket with one valid chapter is kept with a non-empty chapter list. -/
theorem c9_witness :
    (CreateWebsite.process_book_section "odes_solomon" [("fbe121.htm", some noTitleDoc)]).1 =
      none ∧
    ("odes_solomon",
      ({ id := "odes_solomon", title := "The Odes of Solomon",
         chapters := [{ filename := "fbe120.htm", title := "Ode One",
                        content := "<h1>Ode One</h1>\n" }] } : CreateWebsite.BookData)).2.chapters ≠
      [] :=
  ⟨c9_empty_book_amended.1 "odes_solomon" [("fbe121.htm", some noTitleDoc)] (by decide),
   c9_empty_book_amended.2 [("odes_solomon", [("fbe120.htm", some odeDoc)])]
     ("odes_solomon",
       { id := "odes_solomon", title := "The Odes of Solomon",
         chapters := [{ filename := "fbe120.htm", title := "Ode One",
                        content := "<h1>Ode One</h1>\n" }] })
     (by decide)⟩

/-! ## C5: fragment collection with the 10-character threshold -/

/-- A sample page for the collection claims: one heading and one long
paragraph. -/
def collectDoc : Node :=
  Node.elem "html" []
    [Node.elem "body" []
      [Node.elem "h1" [] [Node.text "Chapter One Title"],
       Node.elem "p" [] [Node.text "Some long paragraph about Adam and Eve."]]]

/-- The body element of collectDoc. -/
def collectDocBody : Node :=
  Node.elem "body" []
    [Node.elem "h1" [] [Node.text "Chapter One Title"],
     Node.elem "p" [] [Node.text "Some long paragraph about Adam and Eve."]]

/-- C5: for every document with a body, the fragment of
add_adam_eve.extract_clean_content is the concatenation, in document order,
of the serializations (tag and remaining attributes, newline after each) of
exactly those remaining headings, paragraphs, block quotes and generic
block containers whose trimmed text exceeds 10 characters; elements at or
below the threshold contribute nothing. -/
theorem c5_fragment_collection (root body : Node)
    (hb : findFirstTag "body" root = some body) :
    (AddAdamEve.extract_clean_content root).2 =
      concatStrs
        (((findAllW (fun t _ => isCollectTag t)
              (navPass AddAdamEve.keepCenter (stripTags ["script", "nav", "style"] body))).filter
            AddAdamEve.threshold).map
          (fun e => render (stripLinksBelow e) ++ "\n")) := by
  unfold AddAdamEve.extract_clean_content
  rw [hb]
  simpa [AddAdamEve.collectContent] using
    collectFold_eq
      (findAllW (fun t _ => isCollectTag t)
        (navPass AddAdamEve.keepCenter (stripTags ["script", "nav", "style"] body))) ""

/-- Witness for C5 at a concrete document. -/
theorem c5_witness :
    (AddAdamEve.extract_clean_content collectDoc).2 =
      concatStrs
        (((findAllW (fun t _ => isCollectTag t)
              (navPass AddAdamEve.keepCenter
                (stripTags ["script", "nav", "style"] collectDocBody))).filter
            AddAdamEve.threshold).map
          (fun e => render (stripLinksBelow e) ++ "\n")) :=
  c5_fragment_collection collectDoc collectDocBody rfl

/-! ## C6: hyperlink stripping with text preserved -/

/-- The paragraph of c6body, holding a link with an href and a class. -/
def c6para : Node :=
  Node.elem "p" []
    [Node.elem "a" [("href", "fbe004.htm"), ("class", "x")]
      [Node.text "Some linked paragraph text here"]]

/-- A body holding a heading and a paragraph with a link. -/
def c6body : Node :=
  Node.elem "body" []
    [Node.elem "h1" [] [Node.text "Chapter One Title"], c6para]

/-- C6: every element collected into the add_adam_eve fragment is
serialized with the href attribute of every nested link deleted while all
visible text is preserved, and its serialization appears in the fragment. -/
theorem c6_link_stripping (body e : Node)
    (hmem : e ∈ (findAllW (fun t _ => isCollectTag t) body).filter AddAdamEve.threshold) :
    (∃ pre post, AddAdamEve.collectContent body =
        pre ++ (render (stripLinksBelow e) ++ "\n") ++ post) ∧
    childrenLinksClean (stripLinksBelow e) = true ∧
    getText (stripLinksBelow e) = getText e := by
  refine ⟨?_, stripLinksBelow_clean e, stripLinksBelow_text e⟩
  obtain ⟨s, t2, hst⟩ := List.append_of_mem hmem
  have hc : AddAdamEve.collectContent body =
      concatStrs (((findAllW (fun t _ => isCollectTag t) body).filter AddAdamEve.threshold).map
        (fun x => render (stripLinksBelow x) ++ "\n")) := by
    simpa [AddAdamEve.collectContent] using
      collectFold_eq (findAllW (fun t _ => isCollectTag t) body) ""
  rw [hc, hst, List.map_append, List.map_cons, concatStrs_append]
  refine ⟨concatStrs (s.map (fun x => render (stripLinksBelow x) ++ "\n")),
    concatStrs (t2.map (fun x => render (stripLinksBelow x) ++ "\n")), ?_⟩
  simp [concatStrs, String.append_assoc]

/-- Witness for C6 at a concrete body: the paragraph with the link is
collected; its href is gone, its text intact. -/
theorem c6_witness :
    (∃ pre post, AddAdamEve.collectContent c6body =
        pre ++ (render (stripLinksBelow c6para) ++ "\n") ++ post) ∧
    childrenLinksClean (stripLinksBelow c6para) = true ∧
    getText (stripLinksBelow c6para) = getText c6para :=
  c6_link_stripping c6body c6para
    (by
      show c6para ∈
        [Node.elem "h1" [] [Node.text "Chapter One Title"], c6para]
      simp)

/-! ## C3 and C8: title recovery -/

/-- When some heading qualifies, the heading-scan loop returns the
stripped text of the first qualifying heading, whatever was assigned
before. -/
theorem titleLoop_found (hs : List Node) (h : Node) (acc : String)
    (hf : hs.find? headingQualifies = some h) :
    titleLoop acc hs = pyStrip (getText h) := by
  induction hs generalizing acc with
  | nil => simp [List.find?] at hf
  | cons x xs ih =>
    by_cases hq : headingQualifies x
    · have hx : x = h := by
        rw [List.find?_cons_of_pos _ hq] at hf
        exact Option.some.inj hf
      subst hx
      simp [titleLoop, hq]
    · have hq2 : headingQualifies x = false := by simpa using hq
      rw [List.find?_cons_of_neg _ (by simp [hq2])] at hf
      simp [titleLoop, hq2, ih _ hf]

/-- When no heading qualifies, the heading-scan loop leaks the stripped
text of the last heading (or the initial value with no headings at all). -/
theorem titleLoop_leak (hs : List Node) (acc : String)
    (hf : hs.find? headingQualifies = none) :
    titleLoop acc hs =
      (match hs.getLast? with
       | some h => pyStrip (getText h)
       | none => acc) := by
  induction hs generalizing acc with
  | nil => simp [titleLoop]
  | cons x xs ih =>
    have hq : headingQualifies x = false := by
      by_contra hc
      have : headingQualifies x = true := by simpa using hc
      rw [List.find?_cons_of_pos _ this] at hf
      exact Option.noConfusion hf
    rw [List.find?_cons_of_neg _ (by simp [hq])] at hf
    rw [titleLoop, if_neg (by simp [hq]), ih _ hf]
    cases xs with
    | nil => simp
    | cons y ys =>
      cases hgl : (y :: ys).getLast? with
      | none => exact absurd (List.getLast?_eq_none_iff.mp hgl) (by simp)
      | some h2 => simp [List.getLast?_cons_cons, hgl]

/-- C3 (amended): improve_website title recovery prefers the og:title meta
property (suffix-stripped by metaTitleOf) only when the meta element
SURVIVES the unconditional script/nav/style/head removal — an og:title meta
residing in the document head (its normal location) is decomposed before
the lookup and loses to the headings, which is why the preference is stated
on the cleaned soup.  When a surviving meta has a non-empty stripped value
it wins; with no surviving meta, the result is the stripped text of the
first heading of the processed body that is non-empty and does not start
with the umbrella title. -/
theorem c3_title_priority_amended (root body : Node)
    (hb : findFirstTag "body" (stripTags ["script", "nav", "style", "head"] root) = some body) :
    (∀ m, (findAllW isOgTitleMeta
          (mapFirstBody (navPass ImproveWebsite.keepCenter)
            (stripTags ["script", "nav", "style", "head"] root))).head? = some m →
        ImproveWebsite.metaTitleOf m ≠ "" →
        (ImproveWebsite.extract_clean_content root).1 = ImproveWebsite.metaTitleOf m) ∧
    ((findAllW isOgTitleMeta
          (mapFirstBody (navPass ImproveWebsite.keepCenter)
            (stripTags ["script", "nav", "style", "head"] root))).head? = none →
      ∀ h, (findAllW (fun t _ => isHeadingTag t)
          (navPass ImproveWebsite.keepCenter body)).find? headingQualifies = some h →
        (ImproveWebsite.extract_clean_content root).1 = pyStrip (getText h)) := by
  constructor
  · intro m hm hne
    simp only [ImproveWebsite.extract_clean_content]
    rw [hb]
    simp only [hm]
    simp [hne]
  · intro hm h hf
    simp only [ImproveWebsite.extract_clean_content]
    rw [hb]
    simp only [hm]
    simp [titleFromHeadings, titleLoop_found _ _ _ hf]

/-- A page with the og:title meta in its normal location — the document
head — together with a qualifying heading in the body. -/
def c3headMetaDoc : Node :=
  Node.elem "html" []
    [Node.elem "head" []
      [Node.elem "meta" [("property", "og:title"),
         ("content", "First Book of Adam and Eve | Sacred Texts Archive")] []],
     Node.elem "body" []
      [Node.elem "h2" [] [Node.text "Chapter Heading Title"]]]

/-- The meta element of c3headMetaDoc. -/
def c3headMetaNode : Node :=
  Node.elem "meta" [("property", "og:title"),
    ("content", "First Book of Adam and Eve | Sacred Texts Archive")] []

/-- Counterexample for C3 as stated: the page carries BOTH sources — an
og:title meta (whose stripped value is non-empty and differs from the
heading) and a qualifying heading — yet the extractor returns the heading,
because line 128 decomposes the head, meta included, before the og:title
lookup of line 146: the promised preference for the metadata title fails. -/
theorem c3_counterexample :
    (ImproveWebsite.extract_clean_content c3headMetaDoc).1 = "Chapter Heading Title" ∧
    ImproveWebsite.metaTitleOf c3headMetaNode ≠ "" ∧
    ImproveWebsite.metaTitleOf c3headMetaNode ≠ "Chapter Heading Title" := by
  refine ⟨by decide, by decide, by decide⟩

/-- A page carrying both an og:title meta (inside the body, where it
survives head removal) and a heading. -/
def c3metaDoc : Node :=
  Node.elem "html" []
    [Node.elem "body" []
      [Node.elem "meta" [("property", "og:title"),
         ("content", "First Book of Adam and Eve | Sacred Texts Archive")] [],
       Node.elem "h1" [] [Node.text "Some Heading"]]]

/-- The body of c3metaDoc. -/
def c3metaBody : Node :=
  Node.elem "body" []
    [Node.elem "meta" [("property", "og:title"),
       ("content", "First Book of Adam and Eve | Sacred Texts Archive")] [],
     Node.elem "h1" [] [Node.text "Some Heading"]]

/-- The meta element of c3metaDoc. -/
def c3metaNode : Node :=
  Node.elem "meta" [("property", "og:title"),
    ("content", "First Book of Adam and Eve | Sacred Texts Archive")] []

/-- A page with no meta whose first heading is the umbrella title and whose
second heading is a genuine chapter title. -/
def c3headDoc : Node :=
  Node.elem "html" []
    [Node.elem "body" []
      [Node.elem "h1" [] [Node.text "The Forgotten Books of Eden"],
       Node.elem "h2" [] [Node.text "The First Book of Adam and Eve"]]]

/-- The body of c3headDoc. -/
def c3headBody : Node :=
  Node.elem "body" []
    [Node.elem "h1" [] [Node.text "The Forgotten Books of Eden"],
     Node.elem "h2" [] [Node.text "The First Book of Adam and Eve"]]

/-- The qualifying heading of c3headDoc. -/
def c3h2 : Node := Node.elem "h2" [] [Node.text "The First Book of Adam and Eve"]

/-- Witness for C3 (amended) at concrete inputs: a SURVIVING meta (outside
the head) wins over the heading; with no surviving meta the first
qualifying heading wins. -/
theorem c3_witness :
    (ImproveWebsite.extract_clean_content c3metaDoc).1 = ImproveWebsite.metaTitleOf c3metaNode ∧
    (ImproveWebsite.extract_clean_content c3headDoc).1 = pyStrip (getText c3h2) :=
  ⟨(c3_title_priority_amended c3metaDoc c3metaBody rfl).1 c3metaNode rfl (by decide),
   (c3_title_priority_amended c3headDoc c3headBody rfl).2 rfl c3h2 rfl⟩

/-- C8 (amended): with no usable og:title meta and no qualifying heading,
the loop variable leaks: the returned title is the stripped text of the
LAST heading of the processed body (empty only when there is no heading at
all, since every assigned value stays). -/
theorem c8_title_fallback_amended (root body : Node)
    (hb : findFirstTag "body" (stripTags ["script", "nav", "style", "head"] root) = some body)
    (hm : (findAllW isOgTitleMeta
        (mapFirstBody (navPass ImproveWebsite.keepCenter)
          (stripTags ["script", "nav", "style", "head"] root))).head? = none)
    (hq : (findAllW (fun t _ => isHeadingTag t)
        (navPass ImproveWebsite.keepCenter body)).find? headingQualifies = none) :
    (ImproveWebsite.extract_clean_content root).1 =
      (match (findAllW (fun t _ => isHeadingTag t)
          (navPass ImproveWebsite.keepCenter body)).getLast? with
       | some h => pyStrip (getText h)
       | none => "") := by
  simp only [ImproveWebsite.extract_clean_content]
  rw [hb]
  simp only [hm]
  simp [titleFromHeadings, titleLoop_leak _ _ hq]

/-- A page whose only heading is the umbrella title itself. -/
def c8doc : Node :=
  Node.elem "html" []
    [Node.elem "body" [] [Node.elem "h1" [] [Node.text "The Forgotten Books of Eden"]]]

/-- The body of c8doc. -/
def c8body : Node :=
  Node.elem "body" [] [Node.elem "h1" [] [Node.text "The Forgotten Books of Eden"]]

/-- Counterexample for C8 as stated: with no meta and no qualifying heading
(the single heading is non-empty but starts with the umbrella title), the
extractor returns that heading text, not the empty title the claim
promises. -/
theorem c8_counterexample :
    (ImproveWebsite.extract_clean_content c8doc).1 = "The Forgotten Books of Eden" ∧
    "The Forgotten Books of Eden" ≠ "" := by
  constructor
  · decide
  · decide

/-- Witness for C8 (amended) at the concrete page: the leaked title is the
last heading of the body. -/
theorem c8_witness :
    (ImproveWebsite.extract_clean_content c8doc).1 =
      (match (findAllW (fun t _ => isHeadingTag t)
          (navPass ImproveWebsite.keepCenter c8body)).getLast? with
       | some h => pyStrip (getText h)
       | none => "") :=
  c8_title_fallback_amended c8doc c8body rfl rfl rfl

/-! ## C4: center containers and horizontal rules -/

mutual
/-- No hr element anywhere in the node. -/
def noHr : Node → Bool
  | .text _ => true
  | .elem t _ cs => !(t == "hr") && noHrL cs
/-- noHr over a list of subtrees. -/
def noHrL : List Node → Bool
  | [] => true
  | n :: ns => noHr n && noHrL ns
end

/-- noHrL distributes over append. -/
theorem noHrL_append (a b : List Node) : noHrL (a ++ b) = (noHrL a && noHrL b) := by
  induction a with
  | nil => simp [noHrL]
  | cons n ns ih => simp [noHrL, ih, Bool.and_assoc]

mutual
theorem navPassN_noHr (keep : Node → Bool) : (n : Node) → noHrL (navPassN keep n) = true
  | .text s => rfl
  | .elem t a cs => by
    by_cases hc : t == "center"
    · have ht : t = "center" := by simpa using hc
      subst ht
      by_cases hk : keep (.elem "center" a cs)
      · simp [navPassN, hk, noHrL, noHr, navPassL_noHr keep cs]
      · simp [navPassN, hk, noHrL]
    · by_cases hh : t == "hr"
      · simp [navPassN, hc, hh, noHrL]
      · simp [navPassN, hc, hh, noHrL, noHr, navPassL_noHr keep cs]
theorem navPassL_noHr (keep : Node → Bool) : (l : List Node) → noHrL (navPassL keep l) = true
  | [] => rfl
  | n :: ns => by
    simp [navPassL, noHrL_append, navPassN_noHr keep n, navPassL_noHr keep ns]
end

/-- The keep-condition exactly as the claim words it, for comparison with
the code: the center DIRECTLY contains (among its immediate children) a
heading of level 1-3, or a paragraph whose OWN trimmed text exceeds 50
characters. -/
def claimDirectKeep : Node → Bool
  | .text _ => false
  | .elem _ _ cs =>
    cs.any (fun n =>
      match n with
      | .elem t _ _ => t == "h1" || t == "h2" || t == "h3"
      | .text _ => false) ||
    cs.any (fun n =>
      match n with
      | .elem t _ pcs => t == "p" && (pyStrip (getTextL pcs)).length > 50
      | .text _ => false)

/-- A center whose heading is nested inside a div (so not DIRECTLY
contained). -/
def c4center1 : Node :=
  Node.elem "center" []
    [Node.elem "div" [] [Node.elem "h1" [] [Node.text "Some Heading Text Here"]]]

/-- A page holding only c4center1 in its body. -/
def c4doc1 : Node :=
  Node.elem "html" [] [Node.elem "body" [] [c4center1]]

/-- A center with a short paragraph but long total text. -/
def c4center2 : Node :=
  Node.elem "center" []
    [Node.elem "p" [] [Node.text "this is eleven plus"],
     Node.text "plenty of filler text to push the container text over fifty characters"]

/-- A page holding only c4center2 in its body. -/
def c4doc2 : Node :=
  Node.elem "html" [] [Node.elem "body" [] [c4center2]]

/-- Counterexample for C4 as stated: both sample centers fail the claimed
keep-condition (no direct heading child, no paragraph with more than 50
characters of its own), so per the claim they would be removed and
contribute nothing — yet the code keeps both and their content reaches the
fragment. -/
theorem c4_counterexample :
    claimDirectKeep c4center1 = false ∧
    (AddAdamEve.extract_clean_content c4doc1).2 ≠ "" ∧
    claimDirectKeep c4center2 = false ∧
    (AddAdamEve.extract_clean_content c4doc2).2 ≠ "" := by
  refine ⟨by decide, by decide, by decide, by decide⟩

/-- C4 (amended): every horizontal rule is removed by the center/hr pass;
a center is kept exactly when the code's condition holds — an h1, h2 or h3
descendant at ANY depth, or a p descendant while the trimmed text of the
WHOLE center exceeds 50 characters; and a body holding only a center with a
single paragraph of fewer than 50 characters (and no heading) yields the
empty title and the empty fragment. -/
theorem c4_center_rule_amended :
    (∀ (keep : Node → Bool) (l : List Node), noHrL (navPassL keep l) = true) ∧
    (∀ (a : List (String × String)) (cs : List Node),
      navPassN AddAdamEve.keepCenter (Node.elem "center" a cs) =
        (if AddAdamEve.keepCenter (Node.elem "center" a cs) then
          [Node.elem "center" a (navPassL AddAdamEve.keepCenter cs)]
         else [])) ∧
    (∀ s : String, (pyStrip s).length < 50 →
      AddAdamEve.extract_clean_content
        (Node.elem "html" []
          [Node.elem "body" []
            [Node.elem "center" [] [Node.elem "p" [] [Node.text s]]]]) = ("", "")) := by
  refine ⟨fun keep l => navPassL_noHr keep l, fun a cs => by simp [navPassN], ?_⟩
  intro s hs
  have hkeep : AddAdamEve.keepCenter
      (Node.elem "center" [] [Node.elem "p" [] [Node.text s]]) = false := by
    simp [AddAdamEve.keepCenter, hasDescTag, findAllW, findAllWL, findAllWN,
      getText, getTextL, String.append_empty]
    omega
  have hnav : navPassN AddAdamEve.keepCenter
      (Node.elem "center" [] [Node.elem "p" [] [Node.text s]]) = [] := by
    simp [navPassN, hkeep]
  simp only [AddAdamEve.extract_clean_content]
  simp [AddAdamEve.metaTitle, findFirstTag, findAllW, findAllWL, findAllWN, isOgTitleMeta,
    stripTags, stripTagsL, stripTagsN, navPass, navPassL, hnav, AddAdamEve.collectContent]

/-- Witness for C4 (amended) at a concrete short paragraph. -/
theorem c4_witness :
    AddAdamEve.extract_clean_content
      (Node.elem "html" []
        [Node.elem "body" []
          [Node.elem "center" [] [Node.elem "p" [] [Node.text "short paragraph"]]]]) =
      ("", "") :=
  c4_center_rule_amended.2.2 "short paragraph" (by decide)

/-! ## C1: contiguity of bucket assignment -/

/-- Contiguity of a bucket trace: whenever the same bucket occurs at two
positions, it also occupies every position in between (equivalently: once
the cursor leaves a bucket, that bucket never recurs). -/
def Contig (l : List String) : Prop :=
  ∀ (i j k : Nat) (hi : i < l.length) (hj : j < l.length) (hk : k < l.length),
    i < j → j < k → l.get ⟨i, hi⟩ = l.get ⟨k, hk⟩ → l.get ⟨j, hj⟩ = l.get ⟨i, hi⟩

/-- Collapse adjacent equal entries of a list (the run structure of a
trace). -/
def collapseRuns : List String → List String
  | [] => []
  | x :: xs =>
    match collapseRuns xs with
    | [] => [x]
    | y :: ys => if x = y then y :: ys else x :: y :: ys

/-- collapseRuns keeps the head. -/
theorem collapseRuns_cons (x : String) (l : List String) :
    ∃ t, collapseRuns (x :: l) = x :: t := by
  cases hc : collapseRuns l with
  | nil => exact ⟨[], by simp [collapseRuns, hc]⟩
  | cons y ys =>
    by_cases hxy : x = y
    · subst hxy
      exact ⟨ys, by simp [collapseRuns, hc]⟩
    · exact ⟨y :: ys, by simp [collapseRuns, hc, hxy]⟩

/-- A duplicated head collapses. -/
theorem collapseRuns_cons_same (x : String) (l : List String) :
    collapseRuns (x :: x :: l) = collapseRuns (x :: l) := by
  obtain ⟨t, ht⟩ := collapseRuns_cons x l
  simp only [collapseRuns]
  rw [show (match collapseRuns l with
    | [] => [x]
    | y :: ys => if x = y then y :: ys else x :: y :: ys) = collapseRuns (x :: l) from rfl, ht]
  simp

/-- A head different from the next entry survives collapsing. -/
theorem collapseRuns_cons_ne {c b : String} (m : List String) (hne : c ≠ b) :
    collapseRuns (c :: b :: m) = c :: collapseRuns (b :: m) := by
  obtain ⟨t, ht⟩ := collapseRuns_cons b m
  simp only [collapseRuns]
  rw [show (match collapseRuns m with
    | [] => [b]
    | y :: ys => if b = y then y :: ys else b :: y :: ys) = collapseRuns (b :: m) from rfl, ht]
  simp [hne]

/-- Membership is preserved by collapsing. -/
theorem mem_collapseRuns {x : String} {l : List String} (h : x ∈ l) : x ∈ collapseRuns l := by
  induction l with
  | nil => simp at h
  | cons y ys ih =>
    rcases List.mem_cons.mp h with rfl | h2
    · obtain ⟨t, ht⟩ := collapseRuns_cons x ys
      rw [ht]
      exact List.mem_cons_self _ _
    · have hx2 := ih h2
      simp only [collapseRuns]
      cases hc : collapseRuns ys with
      | nil =>
        rw [hc] at hx2
        simp at hx2
      | cons z zs =>
        rw [hc] at hx2
        by_cases hyz : y = z
        · simpa [hyz] using hx2
        · simp only [if_neg hyz]
          exact List.mem_cons_of_mem _ hx2

/-- Dropping the head of a contiguous trace keeps it contiguous. -/
theorem contig_tail {x : String} {l : List String} (h : Contig (x :: l)) : Contig l := by
  intro i j k hi hj hk hij hjk he
  exact h (i + 1) (j + 1) (k + 1) (Nat.succ_lt_succ hi) (Nat.succ_lt_succ hj)
    (Nat.succ_lt_succ hk) (Nat.succ_lt_succ hij) (Nat.succ_lt_succ hjk) he

/-- Prepending a fresh value keeps a trace contiguous. -/
theorem contig_cons_notMem {x : String} {l : List String} (hx : x ∉ l) (h : Contig l) :
    Contig (x :: l) := by
  intro i j k hi hj hk hij hjk he
  cases i with
  | zero =>
    cases k with
    | zero => exact absurd hjk (by omega)
    | succ k0 =>
      exfalso
      apply hx
      have hx2 : x = l.get ⟨k0, Nat.lt_of_succ_lt_succ hk⟩ := he
      rw [hx2]
      exact List.get_mem _ _ _
  | succ i0 =>
    cases j with
    | zero => exact absurd hij (by omega)
    | succ j0 =>
      cases k with
      | zero => exact absurd hjk (by omega)
      | succ k0 =>
        exact h i0 j0 k0 (Nat.lt_of_succ_lt_succ hi) (Nat.lt_of_succ_lt_succ hj)
          (Nat.lt_of_succ_lt_succ hk) (Nat.lt_of_succ_lt_succ hij)
          (Nat.lt_of_succ_lt_succ hjk) he

/-- Duplicating the head keeps a trace contiguous. -/
theorem contig_cons_dup {x : String} {l : List String} (h : Contig (x :: l)) :
    Contig (x :: x :: l) := by
  intro i j k hi hj hk hij hjk he
  cases i with
  | zero =>
    cases j with
    | zero => exact absurd hij (by omega)
    | succ j0 =>
      cases j0 with
      | zero => rfl
      | succ j1 =>
        cases k with
        | zero => exact absurd hjk (by omega)
        | succ k0 =>
          exact h 0 (j1 + 1) k0 (Nat.succ_pos _) (Nat.lt_of_succ_lt_succ hj)
            (Nat.lt_of_succ_lt_succ hk) (Nat.succ_pos _) (Nat.lt_of_succ_lt_succ hjk) he
  | succ i0 =>
    cases j with
    | zero => exact absurd hij (by omega)
    | succ j0 =>
      cases k with
      | zero => exact absurd hjk (by omega)
      | succ k0 =>
        exact h i0 j0 k0 (Nat.lt_of_succ_lt_succ hi) (Nat.lt_of_succ_lt_succ hj)
          (Nat.lt_of_succ_lt_succ hk) (Nat.lt_of_succ_lt_succ hij)
          (Nat.lt_of_succ_lt_succ hjk) he

/-- Every bucket named by the classification loop is either the starting
cursor or one of the keyword-match results. -/
theorem segAssign_buckets_sub (files : List (String × Node)) (cur x : String)
    (h : x ∈ (CreateWebsite.segAssign cur files).map (fun a => a.2)) :
    x = cur ∨ x ∈ CreateWebsite.matchList files := by
  induction files generalizing cur with
  | nil => simp [CreateWebsite.segAssign] at h
  | cons fd rest ih =>
    by_cases hs : CreateWebsite.skipFile fd.1 = true
    · have h2 : x ∈ (CreateWebsite.segAssign cur rest).map (fun a => a.2) := by
        simpa [CreateWebsite.segAssign, hs] using h
      have hm : CreateWebsite.matchList (fd :: rest) = CreateWebsite.matchList rest := by
        simp [CreateWebsite.matchList, List.filterMap_cons, hs]
      rw [hm]
      exact ih cur h2
    · cases hc : CreateWebsite.classifyTitle
          (pyLower (CreateWebsite.extract_clean_content fd.2).1) with
      | none =>
        have h2 : x = cur ∨ x ∈ (CreateWebsite.segAssign cur rest).map (fun a => a.2) := by
          simpa [CreateWebsite.segAssign, hs, hc] using h
        have hm : CreateWebsite.matchList (fd :: rest) = CreateWebsite.matchList rest := by
          simp [CreateWebsite.matchList, List.filterMap_cons, hs, hc]
        rw [hm]
        rcases h2 with rfl | h3
        · exact Or.inl rfl
        · exact ih cur h3
      | some b =>
        have h2 : x = b ∨ x ∈ (CreateWebsite.segAssign b rest).map (fun a => a.2) := by
          simpa [CreateWebsite.segAssign, hs, hc] using h
        have hm : CreateWebsite.matchList (fd :: rest) = b :: CreateWebsite.matchList rest := by
          simp [CreateWebsite.matchList, List.filterMap_cons, hs, hc]
        rw [hm]
        rcases h2 with rfl | h3
        · exact Or.inr (List.mem_cons_self _ _)
        · rcases ih b h3 with rfl | h4
          · exact Or.inr (List.mem_cons_self _ _)
          · exact Or.inr (List.mem_cons_of_mem _ h4)

/-- Core induction for C1: when the collapsed match trace (with the
starting cursor in front) has no duplicates, the full assignment trace is
contiguous. -/
theorem segAssign_contig (files : List (String × Node)) (cur : String)
    (h : (collapseRuns (cur :: CreateWebsite.matchList files)).Nodup) :
    Contig (cur :: (CreateWebsite.segAssign cur files).map (fun a => a.2)) := by
  induction files generalizing cur with
  | nil =>
    intro i j k hi hj hk hij hjk he
    simp only [CreateWebsite.segAssign, List.map_nil, List.length_cons, List.length_nil] at hk
    exact absurd hjk (by omega)
  | cons fd rest ih =>
    by_cases hs : CreateWebsite.skipFile fd.1 = true
    · have hm : CreateWebsite.matchList (fd :: rest) = CreateWebsite.matchList rest := by
        simp [CreateWebsite.matchList, List.filterMap_cons, hs]
      rw [hm] at h
      have hcont := ih cur h
      simpa [CreateWebsite.segAssign, hs] using hcont
    · cases hc : CreateWebsite.classifyTitle
          (pyLower (CreateWebsite.extract_clean_content fd.2).1) with
      | none =>
        have hm : CreateWebsite.matchList (fd :: rest) = CreateWebsite.matchList rest := by
          simp [CreateWebsite.matchList, List.filterMap_cons, hs, hc]
        rw [hm] at h
        have hcont := ih cur h
        have hdup := contig_cons_dup hcont
        simpa [CreateWebsite.segAssign, hs, hc] using hdup
      | some b =>
        have hm : CreateWebsite.matchList (fd :: rest) = b :: CreateWebsite.matchList rest := by
          simp [CreateWebsite.matchList, List.filterMap_cons, hs, hc]
        rw [hm] at h
        by_cases hcb : cur = b
        · subst hcb
          rw [collapseRuns_cons_same] at h
          have hcont := ih cur h
          have hdup := contig_cons_dup hcont
          simpa [CreateWebsite.segAssign, hs, hc] using hdup
        · rw [collapseRuns_cons_ne _ hcb] at h
          have hnotin : cur ∉ collapseRuns (b :: CreateWebsite.matchList rest) :=
            (List.nodup_cons.mp h).1
          have h2 : (collapseRuns (b :: CreateWebsite.matchList rest)).Nodup :=
            (List.nodup_cons.mp h).2
          have hcont := ih b h2
          have hnotin2 : cur ∉ b :: (CreateWebsite.segAssign b rest).map (fun a => a.2) := by
            intro hmem
            rcases List.mem_cons.mp hmem with rfl | hmem2
            · exact hcb rfl
            · rcases segAssign_buckets_sub rest b cur hmem2 with rfl | hmem3
              · exact hcb rfl
              · exact hnotin (mem_collapseRuns (List.mem_cons_of_mem _ hmem3))
          have := contig_cons_notMem hnotin2 hcont
          simpa [CreateWebsite.segAssign, hs, hc] using this

/-- A page whose heading matches no keyword of the ladder. -/
def chapterDoc : Node :=
  Node.elem "html" [] [Node.elem "body" [] [Node.elem "h1" [] [Node.text "Chapter II"]]]

/-- Three sorted files whose titles re-trigger the first keyword after the
cursor has moved on. -/
def c1files : List (String × Node) :=
  [("fbe010.htm", firstBookDoc), ("fbe011.htm", secondBookDoc), ("fbe012.htm", firstBookDoc)]

/-- Three sorted files whose match trace never re-triggers a left bucket:
a first-book page, an unmatched chapter page, then a second-book page. -/
def c1wfiles : List (String × Node) :=
  [("fbe010.htm", firstBookDoc), ("fbe011.htm", chapterDoc), ("fbe012.htm", secondBookDoc)]

/-- Counterexample for C1 as stated: the classification loop happily
returns to a bucket the cursor has left when a later title matches the old
keyword again, so contiguity does NOT hold for every sorted input
sequence. -/
theorem c1_counterexample :
    (CreateWebsite.identify_book_sections c1files).map (fun a => a.2) =
      ["first_book_adam_eve", "second_book_adam_eve", "first_book_adam_eve"] ∧
    ¬ Contig ["first_book_adam_eve", "second_book_adam_eve", "first_book_adam_eve"] := by
  constructor
  · decide
  · intro h
    have h2 := h 0 1 2 (by decide) (by decide) (by decide) (by decide) (by decide) rfl
    exact absurd h2 (by decide)

/-- C1 (amended): the bucket assignment of identify_book_sections is
contiguous (once the cursor leaves a bucket no later file is assigned to
it) PROVIDED that the sequence of keyword-match results, with adjacent
repeats collapsed and the initial title_pages cursor in front, has no
duplicates — i.e. no keyword bucket is triggered again after the cursor has
left it.  Without that proviso the claim fails (see the counterexample). -/
theorem c1_contiguity_amended (files : List (String × Node))
    (h : (collapseRuns ("title_pages" :: CreateWebsite.matchList files)).Nodup) :
    Contig ((CreateWebsite.identify_book_sections files).map (fun a => a.2)) :=
  contig_tail (segAssign_contig files "title_pages" h)

/-- Witness for C1 (amended) at a concrete input whose matches move
forward only. -/
theorem c1_witness :
    (collapseRuns ("title_pages" :: CreateWebsite.matchList c1wfiles)).Nodup ∧
    Contig ((CreateWebsite.identify_book_sections c1wfiles).map (fun a => a.2)) :=
  ⟨by decide, c1_contiguity_amended c1wfiles (by decide)⟩

/-! ## C10: nested collected elements are serialized twice -/

/-- Strict-descendant relation on the node tree. -/
inductive InTree : Node → Node → Prop where
  | here {n : Node} {t : String} {a : List (String × String)} {cs : List Node}
      (hmem : n ∈ cs) : InTree n (Node.elem t a cs)
  | deeper {n c : Node} {t : String} {a : List (String × String)} {cs : List Node}
      (hmem : c ∈ cs) (hin : InTree n c) : InTree n (Node.elem t a cs)

/-- A matching element of a sibling list appears in the find_all result,
immediately followed by its own matching descendants. -/
theorem findAllWL_split_mem (p : String → List (String × String) → Bool)
    (td : String) (ad : List (String × String)) (cd : List Node) (cs : List Node)
    (hmem : Node.elem td ad cd ∈ cs) (hp : p td ad = true) :
    ∃ u v, findAllWL p cs = u ++ Node.elem td ad cd :: (findAllWL p cd ++ v) := by
  induction cs with
  | nil => simp at hmem
  | cons n ns ih =>
    rcases List.mem_cons.mp hmem with heq | hmem2
    · refine ⟨[], findAllWL p ns, ?_⟩
      simp [findAllWL, ← heq, findAllWN, hp, List.append_assoc]
    · obtain ⟨u, v, huv⟩ := ih hmem2
      exact ⟨findAllWN p n ++ u, v, by simp [findAllWL, huv, List.append_assoc]⟩

/-- A split of the find_all result of one subtree lifts to a split of the
find_all result of any sibling list containing that subtree. -/
theorem findAllWL_split_sub (p : String → List (String × String) → Bool)
    (d : Node) (sub : List Node) (c : Node) (cs : List Node)
    (hmem : c ∈ cs) (hsplit : ∃ u v, findAllW p c = u ++ d :: (sub ++ v)) :
    ∃ u v, findAllWL p cs = u ++ d :: (sub ++ v) := by
  induction cs with
  | nil => simp at hmem
  | cons n ns ih =>
    rcases List.mem_cons.mp hmem with heq | hmem2
    · subst heq
      obtain ⟨u, v, huv⟩ := hsplit
      cases c with
      | text s => simp [findAllW] at huv
      | elem tc ac cc =>
        refine ⟨(if p tc ac then [Node.elem tc ac cc] else []) ++ u,
          v ++ findAllWL p ns, ?_⟩
        have hc : findAllW p (Node.elem tc ac cc) = findAllWL p cc := rfl
        rw [hc] at huv
        simp [findAllWL, findAllWN, huv, List.append_assoc]
    · obtain ⟨u, v, huv⟩ := ih hmem2
      exact ⟨findAllWN p n ++ u, v, by simp [findAllWL, huv, List.append_assoc]⟩

/-- Pre-order structure of find_all: a matching strict descendant element
appears in the result immediately followed by its own matching
descendants. -/
theorem findAll_split_of_inTree (p : String → List (String × String) → Bool)
    {td : String} {ad : List (String × String)} {cd : List Node} {r : Node}
    (hin : InTree (Node.elem td ad cd) r) (hp : p td ad = true) :
    ∃ u v, findAllW p r = u ++ Node.elem td ad cd :: (findAllWL p cd ++ v) := by
  induction hin with
  | here hmem => exact findAllWL_split_mem p td ad cd _ hmem hp
  | deeper hmem hin2 ih => exact findAllWL_split_sub p _ _ _ _ hmem ih

/-- renderL is a homomorphism for list append. -/
theorem renderL_append (a b : List Node) : renderL (a ++ b) = renderL a ++ renderL b := by
  induction a with
  | nil => simp [renderL, String.empty_append]
  | cons n ns ih => simp [renderL, ih, String.append_assoc]

/-- The serialization of a tree contains the serialization of each of its
strict descendants as a substring. -/
theorem render_contains_of_inTree {x r : Node} (hin : InTree x r) :
    ∃ pre post, render r = pre ++ render x ++ post := by
  induction hin with
  | @here t a cs hmem =>
    obtain ⟨s, t2, rfl⟩ := List.append_of_mem hmem
    refine ⟨"<" ++ t ++ renderAttrs a ++ ">" ++ renderL s,
      renderL t2 ++ ("</" ++ t ++ ">"), ?_⟩
    simp [render, renderL_append, renderL, String.append_assoc]
  | @deeper c t a cs hmem hin2 ih =>
    obtain ⟨p1, p2, hp⟩ := ih
    obtain ⟨s, t2, rfl⟩ := List.append_of_mem hmem
    refine ⟨"<" ++ t ++ renderAttrs a ++ ">" ++ renderL s ++ p1,
      p2 ++ renderL t2 ++ ("</" ++ t ++ ">"), ?_⟩
    simp [render, renderL_append, renderL, hp, String.append_assoc]

/-- Mapping the href-stripper over a list preserves membership. -/
theorem mem_stripLinksL {x : Node} {cs : List Node} (h : x ∈ cs) :
    stripLinks x ∈ stripLinksL cs := by
  induction cs with
  | nil => simp at h
  | cons n ns ih =>
    rcases List.mem_cons.mp h with rfl | h2
    · simp [stripLinksL]
    · simp [stripLinksL]
      exact Or.inr (ih h2)

/-- The href-stripper preserves the descendant relation. -/
theorem inTree_stripLinks {x c : Node} (h : InTree x c) :
    InTree (stripLinks x) (stripLinks c) := by
  induction h with
  | here hmem => exact InTree.here (mem_stripLinksL hmem)
  | deeper hmem hin ih => exact InTree.deeper (mem_stripLinksL hmem) ih

/-- A strict descendant of an element is, once stripped, a strict
descendant of the root-preserving stripped element. -/
theorem inTree_stripBelow {x d : Node} (h : InTree x d) :
    InTree (stripLinks x) (stripLinksBelow d) := by
  cases h with
  | here hmem => exact InTree.here (mem_stripLinksL hmem)
  | deeper hmem hin => exact InTree.deeper (mem_stripLinksL hmem) (inTree_stripLinks hin)

/-- On a non-anchor element the two strippers agree. -/
theorem stripLinks_eq_below {t : String} {a : List (String × String)} {cs : List Node}
    (ht : (t == "a") = false) :
    stripLinks (Node.elem t a cs) = stripLinksBelow (Node.elem t a cs) := by
  simp [stripLinks, stripLinksBelow, ht]

/-- C10: when the body contains a div passing the collection threshold
that itself contains a paragraph or heading passing the threshold, the
add_adam_eve fragment serializes both, so the nested element's markup
appears (at least) twice: once inside the div's serialization and once
stand-alone — the fragment is not a disjoint partition of the body. -/
theorem c10_nested_duplication (body : Node)
    (ad : List (String × String)) (cd : List Node)
    (tp : String) (ap : List (String × String)) (cp : List Node)
    (hdin : InTree (Node.elem "div" ad cd) body)
    (hpin : InTree (Node.elem tp ap cp) (Node.elem "div" ad cd))
    (htp : tp = "p" ∨ isHeadingTag tp = true)
    (hcd : AddAdamEve.threshold (Node.elem "div" ad cd) = true)
    (hcp : AddAdamEve.threshold (Node.elem tp ap cp) = true) :
    ∃ pre mid post,
      AddAdamEve.collectContent body =
        pre ++ render (stripLinksBelow (Node.elem tp ap cp)) ++ mid ++
          render (stripLinksBelow (Node.elem tp ap cp)) ++ post := by
  have htpa : (tp == "a") = false := by
    by_contra hx
    have hx2 : (tp == "a") = true := by simpa using hx
    have hx3 : tp = "a" := by simpa using hx2
    subst hx3
    rcases htp with h1 | h2
    · exact absurd h1 (by decide)
    · exact absurd h2 (by decide)
  have htpc : isCollectTag tp = true := by
    rcases htp with rfl | hh
    · decide
    · simp [isCollectTag, hh]
  obtain ⟨u, v, hs1⟩ := findAll_split_of_inTree (fun t _ => isCollectTag t) hdin
    ((by decide : isCollectTag "div" = true) : (fun t _ => isCollectTag t) "div" ad = true)
  obtain ⟨u2, v2, hs2⟩ := findAll_split_of_inTree (fun t _ => isCollectTag t) hpin htpc
  have hs2b : findAllWL (fun t _ => isCollectTag t) cd =
      u2 ++ Node.elem tp ap cp :: (findAllWL (fun t _ => isCollectTag t) cp ++ v2) := hs2
  rw [hs2b] at hs1
  have hcc : AddAdamEve.collectContent body =
      concatStrs (((findAllW (fun t _ => isCollectTag t) body).filter AddAdamEve.threshold).map
        (fun e => render (stripLinksBelow e) ++ "\n")) := by
    simpa [AddAdamEve.collectContent] using
      collectFold_eq (findAllW (fun t _ => isCollectTag t) body) ""
  obtain ⟨X, Y, hXY⟩ := render_contains_of_inTree
    (show InTree (stripLinksBelow (Node.elem tp ap cp))
        (stripLinksBelow (Node.elem "div" ad cd)) by
      have h1 := inTree_stripBelow hpin
      rwa [stripLinks_eq_below htpa] at h1)
  refine ⟨concatStrs ((u.filter AddAdamEve.threshold).map
      (fun e => render (stripLinksBelow e) ++ "\n")) ++ X,
    Y ++ "\n" ++ concatStrs ((u2.filter AddAdamEve.threshold).map
      (fun e => render (stripLinksBelow e) ++ "\n")),
    "\n" ++ concatStrs
      ((((findAllWL (fun t _ => isCollectTag t) cp ++ v2).filter AddAdamEve.threshold ++
          v.filter AddAdamEve.threshold).map
        (fun e => render (stripLinksBelow e) ++ "\n"))), ?_⟩
  rw [hcc, hs1]
  simp only [List.filter_append, List.filter_cons, hcd, hcp, if_true, List.map_append,
    List.map_cons, concatStrs_append, concatStrs]
  rw [hXY]
  simp [String.append_assoc]

/-- The nested paragraph used by the C10 witness. -/
def c10para : Node := Node.elem "p" [] [Node.text "Nested paragraph text content"]

/-- The div wrapping c10para. -/
def c10div : Node := Node.elem "div" [] [c10para]

/-- A body holding only c10div. -/
def c10body : Node := Node.elem "body" [] [c10div]

/-- Witness for C10 at a concrete body: the paragraph markup shows up both
inside the div serialization and on its own. -/
theorem c10_witness :
    ∃ pre mid post,
      AddAdamEve.collectContent c10body =
        pre ++ render (stripLinksBelow c10para) ++ mid ++
          render (stripLinksBelow c10para) ++ post :=
  c10_nested_duplication c10body [] [c10para] "p" [] [Node.text "Nested paragraph text content"]
    (InTree.here (List.mem_cons_self _ _))
    (InTree.here (List.mem_cons_self _ _))
    (Or.inl rfl) (by decide) (by decide)
